import Mathlib

/-!
Verification development for `langchain/document_loaders/blob_loaders/file_system.py`
(`FileSystemBlobLoader`).

The loader owns a root path, a glob pattern (default `"**/[!.]*"`), an optional
set of accepted suffixes and a progress flag.  Its traversal is
`self.path.glob(self.glob)` (CPython `pathlib`), followed by an `is_file()`
filter and an optional suffix filter; `count_matching_files` runs the identical
traversal and counts, and `yield_blobs` materializes one `Blob` per path,
optionally wrapped in a `tqdm` progress bar.

Embedding choices:
* A directory tree is a flat listing of its entries in depth-first preorder
  (the order `scandir` would deliver them during a recursive walk): each entry
  carries its path relative to the loader's root as a list of segments, plus
  its kind (regular file, directory, or special file).  The root itself is a
  `RootFS`: missing, present-but-not-a-directory, or a directory with entries.
* `pathlib` glob semantics are embedded directly: the pattern is split on `/`,
  a `**` component enumerates the current directory and every subdirectory
  (depth-first, duplicates removed keeping the first occurrence, as CPython's
  `_RecursiveWildcardSelector` does with its `yielded` set), and every other
  component is matched against child entry names with `fnmatch`-translated
  tokens (`*`, `?`, literal characters, and `[...]` character classes with
  `!` negation and `a-z` ranges; an unterminated `[` is a literal, exactly as
  `fnmatch.translate` produces).  A non-final component only descends into
  directories; a final component matches entries of any kind.  CPython's
  top-level `_Selector.select_from` returns an empty iterator when the root is
  not an existing directory; `RootFS.glob` does the same.
* `Path.suffix` is embedded from CPython `pathlib`: the substring of the final
  segment from its last dot, provided that dot is neither the first nor the
  last character; otherwise the empty string.
* `Blob` is opaque in the source (imported from `schema`); it is modelled as a
  record identified by the path it was made from.  `yield_blobs` is modelled
  as the trace of observable events of one full consumption: progress-bar
  initialization with its total, each blob hand-off, each `update(1)` call,
  and the bar's release at the end of the `with` block.
-/

/-- Kind of a file-system entry: a regular file, a directory, or a special
file (socket, device, ...). `Path.is_file()` is true exactly for regular
files. -/
inductive FileKind where
  | file : FileKind
  | directory : FileKind
  | special : FileKind
deriving DecidableEq

/-- One entry of the tree under the loader's root: its path relative to the
root (as segments) and its kind.  A tree is listed flat, in depth-first
preorder. -/
structure FSEntry where
  segs : List String
  kind : FileKind
deriving DecidableEq

/-- What the loader's root path resolves to at traversal time: nothing, a
non-directory entry of the given kind, or a directory with the given
depth-first preorder listing of the entries beneath it. -/
inductive RootFS where
  | missing : RootFS
  | nonDirectory (kind : FileKind) : RootFS
  | directory (entries : List FSEntry) : RootFS

/-- Token of a translated `fnmatch` pattern: `*`, `?`, a literal character,
or a character class (negated flag and a list of inclusive ranges; a single
character is the range from itself to itself). -/
inductive Tok where
  | star : Tok
  | qmark : Tok
  | lit (c : Char) : Tok
  | cls (negated : Bool) (ranges : List (Char × Char)) : Tok
deriving DecidableEq

/-- Scan the body of a character class up to the closing bracket, returning
the accumulated content and the remainder; fails when no closing bracket is
found. -/
def scanClassAux (acc : List Char) (cs : List Char) : Option (List Char × List Char) :=
  match cs with
  | [] => none
  | ']' :: rest => some (acc.reverse, rest)
  | c :: rest => scanClassAux (c :: acc) rest

/-- Scan a class body where a bracket appearing first is literal content, as
in `fnmatch.translate`. -/
def scanClassBody (cs : List Char) : Option (List Char × List Char) :=
  match cs with
  | ']' :: rest => scanClassAux [']'] rest
  | _ => scanClassAux [] cs

/-- Scan the characters following an opening `[`: an optional `!` negation,
then the class content up to the closing bracket. -/
def scanClass (cs : List Char) : Option (Bool × List Char × List Char) :=
  match cs with
  | '!' :: rest => (scanClassBody rest).map (fun r => (true, r.1, r.2))
  | _ => (scanClassBody cs).map (fun r => (false, r.1, r.2))

/-- Interpret class content as ranges: `a-z` is a range, any other character
stands for itself (so a leading or trailing `-` is literal, as in a regular
expression class). -/
def parseRanges (cs : List Char) : List (Char × Char) :=
  match cs with
  | [] => []
  | a :: '-' :: b :: rest => (a, b) :: parseRanges rest
  | a :: rest => (a, a) :: parseRanges rest

/-- Membership test of a character in a (possibly negated) class. -/
def classMatch (negated : Bool) (ranges : List (Char × Char)) (c : Char) : Bool :=
  let hit := ranges.any (fun r => r.1 ≤ c && c ≤ r.2)
  if negated then !hit else hit

/-- Translate one `fnmatch` pattern component into tokens.  The fuel is the
number of remaining characters; each step consumes at least one character, so
starting with the full length never exhausts it. -/
def translatePatAux (fuel : Nat) (cs : List Char) : List Tok :=
  match fuel, cs with
  | 0, _ => []
  | _ + 1, [] => []
  | fuel + 1, '*' :: rest => Tok.star :: translatePatAux fuel rest
  | fuel + 1, '?' :: rest => Tok.qmark :: translatePatAux fuel rest
  | fuel + 1, '[' :: rest =>
    match scanClass rest with
    | some (neg, content, rest2) => Tok.cls neg (parseRanges content) :: translatePatAux fuel rest2
    | none => Tok.lit '[' :: translatePatAux fuel rest
  | fuel + 1, c :: rest => Tok.lit c :: translatePatAux fuel rest

/-- Translate an `fnmatch` pattern component into tokens. -/
def translatePat (cs : List Char) : List Tok :=
  translatePatAux cs.length cs

/-- All suffixes of a character list, longest first, ending with `[]`. -/
def suffixesOf (cs : List Char) : List (List Char) :=
  match cs with
  | [] => [[]]
  | c :: rest => (c :: rest) :: suffixesOf rest

/-- Match a token list against a name: `*` matches when the remaining tokens
match some suffix of the name, the other tokens consume one character. -/
def tokMatch (ps : List Tok) (ns : List Char) : Bool :=
  match ps with
  | [] => ns.isEmpty
  | Tok.star :: rest => (suffixesOf ns).any (fun ns2 => tokMatch rest ns2)
  | Tok.qmark :: rest =>
    match ns with
    | [] => false
    | _ :: ns2 => tokMatch rest ns2
  | Tok.lit c :: rest =>
    match ns with
    | [] => false
    | n :: ns2 => c == n && tokMatch rest ns2
  | Tok.cls neg ranges :: rest =>
    match ns with
    | [] => false
    | n :: ns2 => classMatch neg ranges n && tokMatch rest ns2

/-- One component of a glob pattern: the recursive wildcard `**`, or an
ordinary component compiled to `fnmatch` tokens. -/
inductive Seg where
  | dstar : Seg
  | pat (toks : List Tok) : Seg

/-- Split a character list on `/`. -/
def splitSegsAux (acc : List Char) (cs : List Char) : List String :=
  match cs with
  | [] => [String.mk acc.reverse]
  | '/' :: rest => String.mk acc.reverse :: splitSegsAux [] rest
  | c :: rest => splitSegsAux (c :: acc) rest

/-- Parse a glob pattern into components: split on `/`, drop empty components
(as `pathlib` path parsing does), and compile each component, `**` becoming
the recursive wildcard. -/
def parseGlob (pattern : String) : List Seg :=
  ((splitSegsAux [] pattern.toList).filter (fun s => s ≠ "")).map
    (fun s => if s = "**" then Seg.dstar else Seg.pat (translatePat s.toList))

/-- Entries that are immediate children of the directory at path `p`. -/
def childEntries (es : List FSEntry) (p : List String) : List FSEntry :=
  es.filter (fun e => e.segs.length == p.length + 1 && e.segs.take p.length == p)

/-- Final segment of an entry's path: the entry's name. -/
def entryName (e : FSEntry) : String :=
  (e.segs.getLast?).getD ""

/-- Directories visited by `_RecursiveWildcardSelector._iterate_directories`
starting at `p`: the directory itself first, then every directory beneath it
in depth-first preorder (which, for a preorder listing, is just list order). -/
def iterateDirs (es : List FSEntry) (p : List String) : List (List String) :=
  p :: (es.filter (fun e =>
    e.kind == FileKind.directory && p.length < e.segs.length
      && e.segs.take p.length == p)).map (fun e => e.segs)

/-- Remove duplicates keeping the first occurrence, as the `yielded` set of
CPython's recursive wildcard selector does. -/
def dedupAux {α : Type} [BEq α] (seen : List α) (l : List α) : List α :=
  match l with
  | [] => []
  | x :: rest => if seen.contains x then dedupAux seen rest else x :: dedupAux (x :: seen) rest

/-- Remove duplicates from a list, keeping first occurrences. -/
def dedupKeepFirst {α : Type} [BEq α] (l : List α) : List α :=
  dedupAux [] l

/-- Selection of the remaining pattern components from the directory at path
`pre`: the empty pattern yields the directory itself (`_TerminatingSelector`);
an ordinary component matches child names, yielding entries of any kind when
it is the last component and descending only into directories otherwise
(`_WildcardSelector` with its `dironly` flag); `**` runs the rest of the
pattern from every directory of the subtree, removing duplicate results
(`_RecursiveWildcardSelector`). -/
def selSegs (es : List FSEntry) (segs : List Seg) (pre : List String) : List (List String) :=
  match segs with
  | [] => [pre]
  | Seg.pat ts :: rest =>
    (childEntries es pre).flatMap (fun e =>
      if tokMatch ts (entryName e).toList then
        match rest with
        | [] => [e.segs]
        | _ :: _ => if e.kind = FileKind.directory then selSegs es rest e.segs else []
      else [])
  | Seg.dstar :: rest =>
    dedupKeepFirst ((iterateDirs es pre).flatMap (fun q => selSegs es rest q))

/-- Glob over the root, as `self.path.glob(self.glob)` behaves: when the root
does not exist or is not a directory the selection is empty (CPython's
`_Selector.select_from` guard); otherwise the compiled pattern is selected
from the root directory. -/
def RootFS.glob (root : RootFS) (pattern : String) : List (List String) :=
  match root with
  | RootFS.directory es => selSegs es (parseGlob pattern) []
  | _ => []

/-- Kind of the entry a path resolves to under the root, or `none` when no
such entry exists. -/
def statKind (root : RootFS) (p : List String) : Option FileKind :=
  match root with
  | RootFS.missing => none
  | RootFS.nonDirectory k =>
    match p with
    | [] => some k
    | _ :: _ => none
  | RootFS.directory es =>
    match p with
    | [] => some FileKind.directory
    | _ :: _ => (es.find? (fun e => e.segs == p)).map FSEntry.kind

/-- Embedding of `Path.is_file()`: the path resolves to a regular file. -/
def pathIsFile (root : RootFS) (p : List String) : Bool :=
  match statKind root p with
  | some FileKind.file => true
  | _ => false

/-- Index of the last dot in a character list, scanned with a running index
(the embedding of `str.rfind`, with `none` for the missing case). -/
def lastDotFrom (i : Nat) (best : Option Nat) (cs : List Char) : Option Nat :=
  match cs with
  | [] => best
  | c :: rest => lastDotFrom (i + 1) (if c = '.' then some i else best) rest

/-- Embedding of CPython `pathlib`'s `PurePath.suffix` on a name: the
substring from the last dot when that dot is neither the first nor the last
character of the name, and the empty string otherwise. -/
def nameSuffix (name : String) : String :=
  let cs := name.toList
  match lastDotFrom 0 none cs with
  | some i => if 0 < i && i < cs.length - 1 then String.mk (cs.drop i) else ""
  | none => ""

/-- Suffix of a path: the suffix of its final segment. -/
def pathSuffix (p : List String) : String :=
  nameSuffix ((p.getLast?).getD "")

/-- The configuration stored by `FileSystemBlobLoader.__init__`. -/
structure FileSystemBlobLoader where
  path : String
  glob : String
  suffixes : List String
  show_progress : Bool

/-- The body of the loop in `_yield_paths`: keep a globbed path when it is a
regular file and, if the suffix set is non-empty, its suffix is a member. -/
def keepPath (l : FileSystemBlobLoader) (root : RootFS) (p : List String) : Bool :=
  if pathIsFile root p then
    if !l.suffixes.isEmpty && !(l.suffixes.contains (pathSuffix p)) then false
    else true
  else false

/-- Embedding of `_yield_paths`: the globbed paths that survive the file-kind
and suffix filters, in traversal order. -/
def FileSystemBlobLoader.yield_paths (l : FileSystemBlobLoader) (root : RootFS) :
    List (List String) :=
  (RootFS.glob root l.glob).filter (keepPath l root)

/-- Embedding of `count_matching_files`: run `_yield_paths` and count with an
incrementing accumulator, materializing nothing. -/
def FileSystemBlobLoader.count_matching_files (l : FileSystemBlobLoader) (root : RootFS) :
    Nat :=
  (l.yield_paths root).foldl (fun num _ => num + 1) 0

/-- Modelled from the spec: the opaque blob record produced by the external
factory `MakeBlobFromPath` (`Blob.from_path` in the source, defined in the
`schema` module outside this file); only the path it was made from is
observable here. -/
structure Blob where
  path : List String
deriving DecidableEq

/-- The factory call `Blob.from_path(path)`. -/
def Blob.from_path (path : List String) : Blob :=
  Blob.mk path

/-- Observable events of one full consumption of `yield_blobs`: progress-bar
creation with its total, a blob handed to the consumer, a `progress_bar.update(n)`
call, and the bar's release when the `with` block ends. -/
inductive PEvent where
  | initBar (total : Nat) : PEvent
  | yielded (blob : Blob) : PEvent
  | update (n : Nat) : PEvent
  | closeBar : PEvent
deriving DecidableEq

/-- Embedding of `yield_blobs` as its event trace: with `show_progress` a
`tqdm` bar is created with `total=count_matching_files()`, then each path is
materialized into a blob and yielded, followed by `update(1)`; without it the
blobs are yielded with no progress events. -/
def FileSystemBlobLoader.yield_blobs (l : FileSystemBlobLoader) (root : RootFS) :
    List PEvent :=
  if l.show_progress then
    PEvent.initBar (l.count_matching_files root) ::
      (((l.yield_paths root).flatMap
          (fun p => [PEvent.yielded (Blob.from_path p), PEvent.update 1]))
        ++ [PEvent.closeBar])
  else
    (l.yield_paths root).map (fun p => PEvent.yielded (Blob.from_path p))

/-- Blobs handed to the consumer during a trace, in order. -/
def blobsOf (events : List PEvent) : List Blob :=
  events.filterMap (fun e =>
    match e with
    | PEvent.yielded b => some b
    | _ => none)

/-- Number of progress-increment events of a trace. -/
def updateCount (events : List PEvent) : Nat :=
  (events.filter (fun e =>
    match e with
    | PEvent.update _ => true
    | _ => false)).length

/-- The dynamic type of the `path` constructor argument: a `str`, a
`pathlib.Path` (each identified by the path text it denotes), or a value of
any other type, identified by that type's name. -/
inductive PathArg where
  | str (s : String) : PathArg
  | path (s : String) : PathArg
  | other (typeName : String) : PathArg
deriving DecidableEq

/-- Embedding of `__init__`: a `Path` is kept, a `str` is converted, anything
else raises `TypeError`; `suffixes` defaults to the empty collection and is
stored as a set (duplicates removed).  The function takes no file-system
argument: construction performs no file-system access. -/
def FileSystemBlobLoader.new (pathArg : PathArg) (globPattern : String)
    (suffixes : Option (List String)) (show_progress : Bool) :
    Except String FileSystemBlobLoader :=
  match pathArg with
  | PathArg.path s =>
    Except.ok
      { path := s, glob := globPattern,
        suffixes := dedupKeepFirst (suffixes.getD []), show_progress := show_progress }
  | PathArg.str s =>
    Except.ok
      { path := s, glob := globPattern,
        suffixes := dedupKeepFirst (suffixes.getD []), show_progress := show_progress }
  | PathArg.other t => Except.error ("Expected str or Path, got " ++ t)

/-- Whether an `Except` result is a success. -/
def exceptOk {ε α : Type} (r : Except ε α) : Bool :=
  match r with
  | Except.ok _ => true
  | Except.error _ => false

/-- Scenario tree of the spec: a root directory holding `a.txt`, `b.md`, a
subdirectory `sub` with `c.txt`, and `.hidden.txt`, listed in depth-first
preorder. -/
def scenarioTree : RootFS :=
  RootFS.directory
    [ { segs := ["a.txt"], kind := FileKind.file },
      { segs := ["b.md"], kind := FileKind.file },
      { segs := ["sub"], kind := FileKind.directory },
      { segs := ["sub", "c.txt"], kind := FileKind.file },
      { segs := [".hidden.txt"], kind := FileKind.file } ]

/-- Loader configured with the non-recursive pattern, no suffix filter and no
progress bar. -/
def starLoader : FileSystemBlobLoader :=
  { path := "/d", glob := "*", suffixes := [], show_progress := false }

/-- Tree with a regular file inside a hidden directory. -/
def hiddenDirTree : RootFS :=
  RootFS.directory
    [ { segs := [".hiddendir"], kind := FileKind.directory },
      { segs := [".hiddendir", "a.txt"], kind := FileKind.file } ]

/-- Loader with the default pattern, no suffix filter and no progress bar. -/
def defaultLoader : FileSystemBlobLoader :=
  { path := "/d", glob := "**/[!.]*", suffixes := [], show_progress := false }

/-- Loader restricted to `.txt` files with the non-recursive pattern. -/
def txtLoader : FileSystemBlobLoader :=
  { path := "/d", glob := "*", suffixes := [".txt"], show_progress := false }

/-- One-file tree for witnesses. -/
def oneTxtTree : RootFS :=
  RootFS.directory [ { segs := ["a.txt"], kind := FileKind.file } ]

/-- Loader with progress reporting enabled. -/
def progressLoader : FileSystemBlobLoader :=
  { path := "/d", glob := "*", suffixes := [], show_progress := true }

/-- Loader whose suffix set holds only the empty suffix. -/
def emptySuffixLoader : FileSystemBlobLoader :=
  { path := "/d", glob := "*", suffixes := [""], show_progress := false }

/-- Tree holding a single extensionless regular file. -/
def readmeTree : RootFS :=
  RootFS.directory [ { segs := ["README"], kind := FileKind.file } ]

theorem keepPath_eq (l : FileSystemBlobLoader) (root : RootFS) (p : List String) :
    keepPath l root p
      = (pathIsFile root p && (l.suffixes.isEmpty || l.suffixes.contains (pathSuffix p))) := by
  unfold keepPath
  cases hf : pathIsFile root p
  · simp
  · simp only [if_true, Bool.true_and]
    cases hi : l.suffixes.isEmpty <;>
      cases hc : l.suffixes.contains (pathSuffix p) <;> simp [hi, hc]

theorem count_matching_eq_length (l : FileSystemBlobLoader) (root : RootFS) :
    l.count_matching_files root = (l.yield_paths root).length := by
  unfold FileSystemBlobLoader.count_matching_files
  have aux : ∀ (xs : List (List String)) (n : Nat),
      xs.foldl (fun num _ => num + 1) n = n + xs.length := by
    intro xs
    induction xs with
    | nil => intro n; simp
    | cons x rest ih => intro n; simp [List.foldl, ih]; omega
  simp [aux]

theorem blobsOf_pair_flatMap (ps : List (List String)) :
    blobsOf (ps.flatMap (fun p => [PEvent.yielded (Blob.from_path p), PEvent.update 1]))
      = ps.map Blob.from_path := by
  induction ps with
  | nil => rfl
  | cons p rest ih =>
    simp only [List.flatMap_cons, List.map_cons]
    rw [show [PEvent.yielded (Blob.from_path p), PEvent.update 1]
          ++ rest.flatMap (fun p => [PEvent.yielded (Blob.from_path p), PEvent.update 1])
        = PEvent.yielded (Blob.from_path p) :: PEvent.update 1 ::
            rest.flatMap (fun p => [PEvent.yielded (Blob.from_path p), PEvent.update 1]) from rfl]
    simp only [blobsOf, List.filterMap_cons] at ih ⊢
    rw [ih]

theorem blobsOf_map_yielded (ps : List (List String)) :
    blobsOf (ps.map (fun p => PEvent.yielded (Blob.from_path p)))
      = ps.map Blob.from_path := by
  induction ps with
  | nil => rfl
  | cons p rest ih =>
    simp only [List.map_cons, blobsOf, List.filterMap_cons] at ih ⊢
    rw [ih]

theorem blobsOf_yield_blobs (l : FileSystemBlobLoader) (root : RootFS) :
    blobsOf (l.yield_blobs root) = (l.yield_paths root).map Blob.from_path := by
  unfold FileSystemBlobLoader.yield_blobs
  cases h : l.show_progress
  · simp only [Bool.false_eq_true, if_false]
    exact blobsOf_map_yielded _
  · simp only [if_true]
    have h2 := blobsOf_pair_flatMap (l.yield_paths root)
    simp only [blobsOf, List.filterMap_cons, List.filterMap_append] at h2 ⊢
    rw [h2]
    simp [List.filterMap]

theorem updateCount_pair_flatMap (ps : List (List String)) :
    updateCount (ps.flatMap (fun p => [PEvent.yielded (Blob.from_path p), PEvent.update 1]))
      = ps.length := by
  induction ps with
  | nil => rfl
  | cons p rest ih =>
    simp only [List.flatMap_cons, updateCount, List.filter_append, List.length_append] at ih ⊢
    rw [ih]
    show 1 + rest.length = (p :: rest).length
    simp [Nat.add_comm]

/-- C1: for every fixed directory tree that is not mutated between the calls,
`count_matching_files` returns exactly the number of blobs produced by fully
consuming `yield_blobs` on the same enumerator. -/
theorem count_matching_files_eq_blob_count (l : FileSystemBlobLoader) (root : RootFS) :
    l.count_matching_files root = (blobsOf (l.yield_blobs root)).length := by
  rw [count_matching_eq_length, blobsOf_yield_blobs, List.length_map]

/-- C2: with a non-empty suffix set, every yielded path has its suffix in the
set; with an empty suffix set, `_yield_paths` is the glob filtered by the
regular-file test alone, so no path is excluded on account of its suffix. -/
theorem suffix_filter_correct (l : FileSystemBlobLoader) (root : RootFS) :
    (∀ p, l.suffixes ≠ [] → p ∈ l.yield_paths root → pathSuffix p ∈ l.suffixes)
    ∧ (l.suffixes = [] →
        l.yield_paths root = (RootFS.glob root l.glob).filter (fun p => pathIsFile root p)) := by
  constructor
  · intro p hne hp
    unfold FileSystemBlobLoader.yield_paths at hp
    rw [List.mem_filter, keepPath_eq] at hp
    have hk := hp.2
    rw [Bool.and_eq_true, Bool.or_eq_true] at hk
    rcases hk.2 with he | hc
    · exact absurd (by simpa using he) hne
    · simpa using hc
  · intro he
    unfold FileSystemBlobLoader.yield_paths
    have hf : keepPath l root = fun p => pathIsFile root p := by
      funext p
      rw [keepPath_eq, he]
      simp
    rw [hf]

/-- C3: every path yielded by the enumeration resolves to a regular file;
directories and special files matched by the glob pattern are never yielded
(and, since `count_matching_files` counts exactly these paths, never
counted). -/
theorem only_regular_files_yielded (l : FileSystemBlobLoader) (root : RootFS)
    (p : List String) (h : p ∈ l.yield_paths root) :
    statKind root p = some FileKind.file := by
  unfold FileSystemBlobLoader.yield_paths at h
  rw [List.mem_filter, keepPath_eq, Bool.and_eq_true] at h
  have hf := h.2.1
  unfold pathIsFile at hf
  rcases hs : statKind root p with _ | k
  · rw [hs] at hf
    exact absurd hf (by simp)
  · cases k
    · rfl
    · rw [hs] at hf
      exact absurd hf (by simp)
    · rw [hs] at hf
      exact absurd hf (by simp)

/-- C4: with `show_progress`, `yield_blobs` first creates the progress bar
with total equal to the number of matching files, then yields each blob and
sends one `update(1)` right after it; over the full consumption the bar
receives exactly that many increments. -/
theorem progress_trace_correct (l : FileSystemBlobLoader) (root : RootFS)
    (h : l.show_progress = true) :
    l.yield_blobs root =
      PEvent.initBar ((l.yield_paths root).length) ::
        (((l.yield_paths root).flatMap
            (fun p => [PEvent.yielded (Blob.from_path p), PEvent.update 1]))
          ++ [PEvent.closeBar])
    ∧ updateCount (l.yield_blobs root) = (l.yield_paths root).length := by
  have htr : l.yield_blobs root =
      PEvent.initBar ((l.yield_paths root).length) ::
        (((l.yield_paths root).flatMap
            (fun p => [PEvent.yielded (Blob.from_path p), PEvent.update 1]))
          ++ [PEvent.closeBar]) := by
    unfold FileSystemBlobLoader.yield_blobs
    rw [h, count_matching_eq_length]
    simp
  refine ⟨htr, ?_⟩
  rw [htr]
  have hmid := updateCount_pair_flatMap (l.yield_paths root)
  simp only [updateCount] at hmid
  simp [updateCount, List.filter_cons, List.filter_append, hmid]

/-- C5 counterexample: the claim asserts that with pattern `*` on the scenario
tree the enumeration yields exactly the set containing `a.txt` and `b.md`,
with `.hidden.txt` excluded; in fact `.hidden.txt` is yielded, because
`fnmatch`-style `*` (unlike a shell glob) matches names that begin with a
dot. -/
theorem scenario_c_hidden_not_excluded :
    [".hidden.txt"] ∈ starLoader.yield_paths scenarioTree := by decide

/-- C5 amended: with pattern `*` (non-recursive) and no suffix filter, the
enumeration on the scenario tree yields exactly `a.txt`, `b.md` and
`.hidden.txt`; `sub/c.txt` is excluded because it needs recursive matching,
but `.hidden.txt` is included since `fnmatch` patterns give dots no special
treatment. -/
theorem scenario_c_amended :
    starLoader.yield_paths scenarioTree = [["a.txt"], ["b.md"], [".hidden.txt"]] := by
  rfl

/-- C6: construction fails with `TypeError` precisely when the `path`
argument is neither a string nor a `pathlib.Path`, in which case no loader is
produced; for a string or `Path` argument it succeeds.  (`FileSystemBlobLoader.new`
takes no file-system argument at all: construction performs no file-system
access.) -/
theorem construction_type_validation (pa : PathArg) (g : String)
    (sfx : Option (List String)) (sp : Bool) :
    (exceptOk (FileSystemBlobLoader.new pa g sfx sp) = true
        ↔ (∃ s, pa = PathArg.str s) ∨ (∃ s, pa = PathArg.path s))
    ∧ ((∃ e, FileSystemBlobLoader.new pa g sfx sp = Except.error e)
        ↔ ∃ t, pa = PathArg.other t) := by
  cases pa <;> simp [FileSystemBlobLoader.new, exceptOk]

/-- C7: when the root does not exist or is not a directory, counting and
enumeration exhibit the identical policy: both produce an empty result (count
zero, no blob, no path) and neither raises. -/
theorem missing_root_uniform_policy (l : FileSystemBlobLoader) (root : RootFS)
    (h : root = RootFS.missing ∨ ∃ k, root = RootFS.nonDirectory k) :
    l.count_matching_files root = 0 ∧ blobsOf (l.yield_blobs root) = []
      ∧ l.yield_paths root = [] := by
  have hp : l.yield_paths root = [] := by
    rcases h with h | ⟨k, h⟩ <;> subst h <;> rfl
  refine ⟨?_, ?_, hp⟩
  · rw [count_matching_eq_length, hp]
    rfl
  · rw [blobsOf_yield_blobs, hp]
    rfl

/-- C9: under the default pattern `**/[!.]*` only the final path segment is
tested against `[!.]*`: the recursive wildcard descends into the hidden
directory `.hiddendir`, so the regular file `.hiddendir/a.txt` is yielded and
counted even though its path contains a dot-prefixed segment. -/
theorem hidden_directory_file_yielded :
    defaultLoader.yield_paths hiddenDirTree = [[".hiddendir", "a.txt"]]
      ∧ defaultLoader.count_matching_files hiddenDirTree = 1 := by
  constructor <;> rfl

/-- C10: with a non-empty suffix set, a regular file matched by the glob
whose final segment has the empty suffix is yielded exactly when the empty
string is a member of the suffix set. -/
theorem empty_suffix_iff_yielded (l : FileSystemBlobLoader) (root : RootFS)
    (p : List String) (h1 : l.suffixes ≠ []) (h2 : p ∈ RootFS.glob root l.glob)
    (h3 : statKind root p = some FileKind.file) (h4 : pathSuffix p = "") :
    (p ∈ l.yield_paths root ↔ "" ∈ l.suffixes) := by
  unfold FileSystemBlobLoader.yield_paths
  rw [List.mem_filter, keepPath_eq]
  have hf : pathIsFile root p = true := by
    unfold pathIsFile
    rw [h3]
  have hi : l.suffixes.isEmpty = false := by
    cases hs : l.suffixes
    · exact absurd hs h1
    · rfl
  rw [h4, hf, hi]
  simp [h2]

/-- Witness for C2: on a one-file tree with suffix set `[".txt"]`, the
yielded path `a.txt` indeed has its suffix in the set. -/
theorem suffix_filter_correct_witness :
    pathSuffix ["a.txt"] ∈ txtLoader.suffixes :=
  (suffix_filter_correct txtLoader oneTxtTree).1 ["a.txt"] (by decide) (by decide)

/-- Witness for C3: the yielded path `a.txt` of the one-file tree resolves to
a regular file. -/
theorem only_regular_files_yielded_witness :
    statKind oneTxtTree ["a.txt"] = some FileKind.file :=
  only_regular_files_yielded txtLoader oneTxtTree ["a.txt"] (by decide)

/-- Witness for C4: the progress-reporting loader on the one-file tree emits
the initialization-with-total, one blob, one increment, and the bar
release. -/
theorem progress_trace_correct_witness :
    progressLoader.yield_blobs oneTxtTree =
      PEvent.initBar ((progressLoader.yield_paths oneTxtTree).length) ::
        (((progressLoader.yield_paths oneTxtTree).flatMap
            (fun p => [PEvent.yielded (Blob.from_path p), PEvent.update 1]))
          ++ [PEvent.closeBar])
    ∧ updateCount (progressLoader.yield_blobs oneTxtTree)
        = (progressLoader.yield_paths oneTxtTree).length :=
  progress_trace_correct progressLoader oneTxtTree rfl

/-- Witness for C7: on a missing root the default loader counts zero, yields
no blob and no path. -/
theorem missing_root_uniform_policy_witness :
    defaultLoader.count_matching_files RootFS.missing = 0
      ∧ blobsOf (defaultLoader.yield_blobs RootFS.missing) = []
      ∧ defaultLoader.yield_paths RootFS.missing = [] :=
  missing_root_uniform_policy defaultLoader RootFS.missing (Or.inl rfl)

/-- Witness for C10: the extensionless regular file `README` is yielded by
the loader whose suffix set is exactly the empty suffix, and indeed the empty
string is a member of that set. -/
theorem empty_suffix_iff_yielded_witness :
    (["README"] ∈ emptySuffixLoader.yield_paths readmeTree
      ↔ "" ∈ emptySuffixLoader.suffixes) :=
  empty_suffix_iff_yielded emptySuffixLoader readmeTree ["README"]
    (by decide) (by decide) (by decide) (by decide)
